import Mathlib

/-!
Verification of the Snakes-and-Ladders power-up solver (src/app.py).

The development shallowly embeds the three algorithmic functions of the
source — coord_to_square, simulate_move and find_winning_solution (with its
greedy fallback), together with the jump-discovery loop of parse_svg_board —
and proves or refutes the specified properties about them.  Pixel coordinates
are modelled as exact rationals, Python integers as Int, the Python dict of
jumps as a partial map, and the bounded while loop as an iterated step
function that becomes the identity once the loop condition fails.
-/

namespace SnakesLadders

/-- Pixels per board square; the constant SQUARE_SIZE = 32 of src/app.py. -/
def SQUARE_SIZE : ℚ := 32

/-- Column index of a pixel x-coordinate: int(x // SQUARE_SIZE) in
coord_to_square (src/app.py line 49). -/
def colOf (x : ℚ) : ℤ := ⌊x / SQUARE_SIZE⌋

/-- Bottom-up row index of a pixel y-coordinate:
height - 1 - int(y // SQUARE_SIZE) in coord_to_square (lines 50-51). -/
def rowOf (y : ℚ) (height : ℤ) : ℤ := height - 1 - ⌊y / SQUARE_SIZE⌋

/-- Embedding of coord_to_square (src/app.py lines 44-62): convert a pixel
point to a 1-based square id in boustrophedon order, or none when the point
lies outside the grid. -/
def coord_to_square (x y : ℚ) (width height : ℤ) : Option ℤ :=
  if x < 0 ∨ y < 0 then none
  else if rowOf y height < 0 ∨ colOf x < 0 ∨ rowOf y height ≥ height ∨ colOf x ≥ width then
    none
  else if rowOf y height % 2 = 0 then
    some (rowOf y height * width + colOf x + 1)
  else
    some (rowOf y height * width + (width - 1 - colOf x) + 1)

/-- Step width of one roll: face under the regular die, 2 ^ face under the
power-of-two die (src/app.py lines 66-70). -/
def moveValue (dice_type face : ℕ) : ℤ := if dice_type = 0 then (face : ℤ) else 2 ^ face

/-- Die kind used for the next roll: rolling 6 on the regular die powers up,
rolling 1 on the power die reverts (src/app.py lines 68 and 71). -/
def nextDiceOf (dice_type face : ℕ) : ℕ :=
  if dice_type = 0 then (if face = 6 then 1 else 0) else (if face = 1 then 0 else 1)

/-- Overshoot reflection: a provisional position beyond the last square
bounces back by the excess (src/app.py lines 76-77). -/
def reflectOvershoot (total_squares p : ℤ) : ℤ :=
  if p > total_squares then total_squares - (p - total_squares) else p

/-- Single application of the jump table to a landing square
(src/app.py lines 80-81). -/
def applyJumps (jumps : ℤ → Option ℤ) (p : ℤ) : ℤ :=
  match jumps p with
  | some d => d
  | none => p

/-- Embedding of simulate_move (src/app.py lines 64-83): one die roll from a
position, composing the step value, the overshoot reflection and one jump
application, together with the die-kind transition. -/
def simulate_move (pos : ℤ) (face dice_type : ℕ) (total_squares : ℤ)
    (jumps : ℤ → Option ℤ) : ℤ × ℕ :=
  (applyJumps jumps (reflectOvershoot total_squares (pos + moveValue dice_type face)),
   nextDiceOf dice_type face)

/-- A queue entry of the search in find_winning_solution:
(pos, dice_type, rolls, visited_squares) (src/app.py line 90). -/
structure Entry where
  pos : ℤ
  dice : ℕ
  rolls : List ℕ
  visitedSquares : Finset ℤ
deriving DecidableEq

/-- The mutable state of the search loop of find_winning_solution
(src/app.py lines 89-124), plus a log recording every (position, die kind)
pair appended to the queue, in enqueue order. -/
structure SearchState where
  queue : List Entry
  visitedStates : Finset (ℤ × ℕ)
  best : Option (List ℕ)
  bestCov : ℚ
  iterations : ℕ
  log : List (ℤ × ℕ)
deriving DecidableEq

/-- The search state just before the first loop iteration
(src/app.py lines 89-98). -/
def initState : SearchState :=
  { queue := [⟨0, 0, [], {0}⟩], visitedStates := {(0, 0)}, best := none,
    bestCov := 0, iterations := 0, log := [(0, 0)] }

/-- Body of the for-face loop of find_winning_solution (src/app.py lines
117-124): try one die face from the dequeued entry e, enqueueing the
successor when its state pair is unvisited or its path covers a new square. -/
def expandFace (total_squares : ℤ) (jumps : ℤ → Option ℤ) (e : Entry)
    (s : SearchState) (face : ℕ) : SearchState :=
  if (simulate_move e.pos face e.dice total_squares jumps) ∉ s.visitedStates ∨
      (insert (simulate_move e.pos face e.dice total_squares jumps).1 e.visitedSquares).card >
        e.visitedSquares.card then
    { s with
      visitedStates := insert (simulate_move e.pos face e.dice total_squares jumps) s.visitedStates,
      queue := s.queue ++ [⟨(simulate_move e.pos face e.dice total_squares jumps).1,
        (simulate_move e.pos face e.dice total_squares jumps).2, e.rolls ++ [face],
        insert (simulate_move e.pos face e.dice total_squares jumps).1 e.visitedSquares⟩],
      log := s.log ++ [simulate_move e.pos face e.dice total_squares jumps] }
  else s

/-- Iteration cap of the search loop; max_iterations = 100000 in
find_winning_solution (src/app.py line 97). -/
def max_iterations : ℕ := 100000

/-- One iteration of the while loop of find_winning_solution (src/app.py
lines 100-124): dequeue an entry, record it as a candidate solution when it
sits on the goal square and improves the coverage score, drop it when its
roll list is longer than 1000, and otherwise expand all six faces in
ascending order.  The function is the identity once the queue is empty or
the iteration cap is reached, so iterating it max_iterations times yields
exactly the state in which the source loop exits. -/
def searchStep (total_squares : ℤ) (jumps : ℤ → Option ℤ) (s : SearchState) : SearchState :=
  match s.queue with
  | [] => s
  | e :: rest =>
    if s.iterations < max_iterations then
      if e.pos = total_squares then
        if Rat.divInt (e.visitedSquares.card : ℤ) total_squares > s.bestCov then
          { s with queue := rest, iterations := s.iterations + 1,
                   best := some e.rolls,
                   bestCov := Rat.divInt (e.visitedSquares.card : ℤ) total_squares }
        else { s with queue := rest, iterations := s.iterations + 1 }
      else if e.rolls.length > 1000 then
        { s with queue := rest, iterations := s.iterations + 1 }
      else
        [1, 2, 3, 4, 5, 6].foldl (expandFace total_squares jumps e)
          { s with queue := rest, iterations := s.iterations + 1 }
    else s

/-- State of the greedy fallback loop of find_winning_solution
(src/app.py lines 131-133). -/
structure GreedyState where
  pos : ℤ
  dice : ℕ
  rolls : List ℕ
  visited : Finset ℤ
deriving DecidableEq

/-- The face-selection loop of the greedy fallback (src/app.py lines
139-155): pick the face with the highest progress score, halving the score
of already-visited squares and strongly preferring winning moves. -/
def pickBestFace (total_squares : ℤ) (jumps : ℤ → Option ℤ) (g : GreedyState) : ℕ :=
  (([1, 2, 3, 4, 5, 6] : List ℕ).foldl (fun acc face =>
    let next_pos : ℤ := (simulate_move g.pos face g.dice total_squares jumps).1
    let base : ℚ := if next_pos ∉ g.visited then (next_pos : ℚ) else (next_pos : ℚ) * (1 / 2)
    let progress : ℚ := if next_pos = total_squares then base + 1000 else base
    if progress > acc.2 then (face, progress) else acc) ((1 : ℕ), (-1 : ℚ))).1

/-- One iteration of the greedy fallback loop (src/app.py lines 135-159):
a no-op at the goal, otherwise roll the best-scoring face and advance. -/
def greedyStep (total_squares : ℤ) (jumps : ℤ → Option ℤ) (g : GreedyState) : GreedyState :=
  if g.pos = total_squares then g
  else
    { pos := (simulate_move g.pos (pickBestFace total_squares jumps g) g.dice total_squares jumps).1,
      dice := (simulate_move g.pos (pickBestFace total_squares jumps g) g.dice total_squares jumps).2,
      rolls := g.rolls ++ [pickBestFace total_squares jumps g],
      visited := insert
        (simulate_move g.pos (pickBestFace total_squares jumps g) g.dice total_squares jumps).1
        g.visited }

/-- The greedy fallback of find_winning_solution (src/app.py lines 130-161):
up to 1000 greedy moves, with the literal [1] substituted for an empty roll
list on return. -/
def greedyFallback (total_squares : ℤ) (jumps : ℤ → Option ℤ) : List ℕ :=
  if ((greedyStep total_squares jumps)^[1000] ⟨0, 0, [], {0}⟩).rolls = [] then [1]
  else ((greedyStep total_squares jumps)^[1000] ⟨0, 0, [], {0}⟩).rolls

/-- Return-value selection of find_winning_solution (src/app.py lines
126-161): the recorded best solution when it is a non-empty list, and
otherwise the greedy fallback. -/
def chooseResult (total_squares : ℤ) (jumps : ℤ → Option ℤ) : Option (List ℕ) → List ℕ
  | some rolls => if rolls = [] then greedyFallback total_squares jumps else rolls
  | none => greedyFallback total_squares jumps

/-- Embedding of find_winning_solution (src/app.py lines 85-161): run the
search loop to its cap, then select the returned roll list. -/
def find_winning_solution (total_squares : ℤ) (jumps : ℤ → Option ℤ) : List ℕ :=
  chooseResult total_squares jumps
    ((searchStep total_squares jumps)^[max_iterations] initState).best

/-- Replay of a roll sequence from the start state (0, Regular), folding
simulate_move over the faces; this is the stepping loop of test_solution in
src/app.py (lines 167-187) and the replay of spec section 4.2. -/
def replay (total_squares : ℤ) (jumps : ℤ → Option ℤ) (rolls : List ℕ) : ℤ × ℕ :=
  rolls.foldl (fun st face => simulate_move st.1 face st.2 total_squares jumps) (0, 0)

/-- The empty jump table: a board with no snakes and no ladders. -/
def emptyJumps : ℤ → Option ℤ := fun _ => none

/-- A 2-square board whose goal square is the source of a snake, making the
goal state unreachable: every move that lands on square 2 is redirected to
square 1 before the goal test can see it. -/
def jumpsGoalSnake : ℤ → Option ℤ := fun k => if k = 2 then some 1 else none

/-- A 20-square jump table with a chain: square 9 jumps to square 2, and
square 2 itself jumps to square 5. -/
def chainJumps : ℤ → Option ℤ :=
  fun k => if k = 9 then some 2 else if k = 2 then some 5 else none

/-- A roll sequence is winning on a board when every face is a legal die
face and its replay from (0, Regular) ends on the last square. -/
def winSeq (total_squares : ℤ) (jumps : ℤ → Option ℤ) (rolls : List ℕ) : Prop :=
  (∀ f ∈ rolls, 1 ≤ f ∧ f ≤ 6) ∧ (replay total_squares jumps rolls).1 = total_squares

instance (total_squares : ℤ) (jumps : ℤ → Option ℤ) (rolls : List ℕ) :
    Decidable (winSeq total_squares jumps rolls) := by
  unfold winSeq; infer_instance

/-- Game states reachable from the start state (0, Regular) under legal
rolls of the move rule; the reachability notion of spec section 4.2. -/
inductive Reaches (total_squares : ℤ) (jumps : ℤ → Option ℤ) : ℤ × ℕ → Prop where
  | start : Reaches total_squares jumps (0, 0)
  | roll : ∀ p d f, 1 ≤ f → f ≤ 6 → Reaches total_squares jumps (p, d) →
      Reaches total_squares jumps (simulate_move p f d total_squares jumps)

/-- The loop guard of the search has failed: the queue is exhausted or the
iteration cap is reached (the negation of the condition on src/app.py
line 100). -/
def isFinished (s : SearchState) : Prop :=
  s.queue = [] ∨ ¬ s.iterations < max_iterations

instance (s : SearchState) : Decidable (isFinished s) := by
  unfold isFinished; infer_instance

/-- Die-kind transition as worded by the spec: the next die is the power die
exactly when a 6 is rolled on the regular die or anything but a 1 is rolled
on the power die. -/
def specNextDie (dice_type face : ℕ) : ℕ :=
  if (dice_type = 0 ∧ face = 6) ∨ (dice_type ≠ 0 ∧ face ≠ 1) then 1 else 0

/-- Move rule as worded by spec section 4.2, for comparison with
simulate_move: step value, then overshoot reflection, then one jump
application, with the die transition computed from the face alone. -/
def specMove (pos : ℤ) (face dice_type : ℕ) (total_squares : ℤ)
    (jumps : ℤ → Option ℤ) : ℤ × ℕ :=
  (applyJumps jumps (reflectOvershoot total_squares (pos + moveValue dice_type face)),
   specNextDie dice_type face)

/-- Coordinate-to-square mapping as worded by spec section 4.1.1, for
comparison with coord_to_square: no square when the point or the computed
row and column fall outside the grid, otherwise the boustrophedon number. -/
def specSquareOfPoint (x y : ℚ) (width height : ℤ) : Option ℤ :=
  if x < 0 ∨ y < 0 ∨ colOf x < 0 ∨ colOf x ≥ width ∨
      rowOf y height < 0 ∨ rowOf y height ≥ height then none
  else if rowOf y height % 2 = 0 then
    some (rowOf y height * width + colOf x + 1)
  else
    some (rowOf y height * width + (width - 1 - colOf x) + 1)

/-- A line-segment element of the board drawing, already reduced to its
stroke attribute and its four numeric endpoint coordinates (the fields read
on src/app.py lines 28-32).  The stroke field holds the attribute value
already stripped of surrounding whitespace and lowercased, the form in
which the source compares it; that string normalization, like the XML and
float parsing, is part of the input decoding outside this embedding. -/
structure Seg where
  stroke : String
  x1 : ℚ
  y1 : ℚ
  x2 : ℚ
  y2 : ℚ

/-- Combination of the two endpoint squares of a segment (src/app.py lines
33-37): a jump is produced only when both endpoints mapped to squares and
the two squares are truthy and distinct. -/
def segPair : Option ℤ → Option ℤ → Option (ℤ × ℤ)
  | some a, some b => if a ≠ 0 ∧ b ≠ 0 ∧ a ≠ b then some (a, b) else none
  | _, _ => none

/-- The jump contributed by one line segment, if any (src/app.py lines
28-37): the stroke must be non-empty and differ from "none", and the two
endpoints must map to distinct squares. -/
def segJump (s : Seg) (width height : ℤ) : Option (ℤ × ℤ) :=
  if s.stroke ≠ "" ∧ s.stroke ≠ "none" then
    segPair (coord_to_square s.x1 s.y1 width height) (coord_to_square s.x2 s.y2 width height)
  else none

/-- Insertion of one jump binding into the jump map, overwriting any earlier
binding for the same source square (the dict assignment on line 37). -/
def addJump (m : ℤ → Option ℤ) (a b : ℤ) : ℤ → Option ℤ :=
  fun k => if k = a then some b else m k

/-- Fold step of jump discovery: add the segment's jump when it has one. -/
def jumpUpdate (width height : ℤ) (m : ℤ → Option ℤ) (s : Seg) : ℤ → Option ℤ :=
  match segJump s width height with
  | some ab => addJump m ab.1 ab.2
  | none => m

/-- Embedding of the jump-discovery loop of parse_svg_board (src/app.py
lines 24-42), over the document-ordered list of line segments. -/
def parse_board_jumps (segs : List Seg) (width height : ℤ) : ℤ → Option ℤ :=
  segs.foldl (jumpUpdate width height) emptyJumps

/-! Helper lemmas about the search step. -/

theorem expandFace_untouched (t : ℤ) (j : ℤ → Option ℤ) (e : Entry) (s : SearchState)
    (face : ℕ) :
    (expandFace t j e s face).iterations = s.iterations ∧
    (expandFace t j e s face).best = s.best ∧
    (expandFace t j e s face).bestCov = s.bestCov := by
  unfold expandFace
  split <;> exact ⟨rfl, rfl, rfl⟩

theorem foldl_expandFace_untouched (t : ℤ) (j : ℤ → Option ℤ) (e : Entry) :
    ∀ (l : List ℕ) (s : SearchState),
      (l.foldl (expandFace t j e) s).iterations = s.iterations ∧
      (l.foldl (expandFace t j e) s).best = s.best ∧
      (l.foldl (expandFace t j e) s).bestCov = s.bestCov := by
  intro l
  induction l with
  | nil => intro s; exact ⟨rfl, rfl, rfl⟩
  | cons f tl ih =>
    intro s
    simp only [List.foldl_cons]
    obtain ⟨h1, h2, h3⟩ := ih (expandFace t j e s f)
    obtain ⟨g1, g2, g3⟩ := expandFace_untouched t j e s f
    exact ⟨h1.trans g1, h2.trans g2, h3.trans g3⟩

theorem searchStep_finished (t : ℤ) (j : ℤ → Option ℤ) (s : SearchState)
    (h : isFinished s) : searchStep t j s = s := by
  unfold searchStep
  split
  · rfl
  · rename_i e rest hqq
    rcases h with hq | hi
    · rw [hqq] at hq; exact absurd hq (by simp)
    · rw [if_neg hi]

theorem searchStep_iterations (t : ℤ) (j : ℤ → Option ℤ) (s : SearchState)
    (h : ¬ isFinished s) : (searchStep t j s).iterations = s.iterations + 1 := by
  unfold isFinished at h
  push_neg at h
  obtain ⟨hq, hi⟩ := h
  unfold searchStep
  split
  · rename_i hqq; exact absurd hqq hq
  · rename_i e rest hqq
    rw [if_pos hi]
    by_cases hg : e.pos = t
    · rw [if_pos hg]
      split <;> rfl
    · rw [if_neg hg]
      by_cases hl : e.rolls.length > 1000
      · rw [if_pos hl]
      · rw [if_neg hl]
        exact (foldl_expandFace_untouched t j e [1, 2, 3, 4, 5, 6] _).1

theorem iterate_searchStep_finished (t : ℤ) (j : ℤ → Option ℤ) :
    ∀ n : ℕ, isFinished ((searchStep t j)^[n] initState) ∨
      ((searchStep t j)^[n] initState).iterations = n := by
  intro n
  induction n with
  | zero => exact Or.inr rfl
  | succ n ih =>
    rw [Function.iterate_succ_apply']
    by_cases hf : isFinished ((searchStep t j)^[n] initState)
    · left
      rw [searchStep_finished t j _ hf]
      exact hf
    · rcases ih with h | h
      · exact absurd h hf
      · right
        rw [searchStep_iterations t j _ hf, h]

/-! The set of pairs ever enqueued versus the visited-states set. -/

theorem toFinset_append_single (l : List (ℤ × ℕ)) (a : ℤ × ℕ) :
    (l ++ [a]).toFinset = insert a l.toFinset := by
  ext p
  simp [or_comm]

theorem expandFace_logVisited (t : ℤ) (j : ℤ → Option ℤ) (e : Entry) (s : SearchState)
    (face : ℕ) (h : s.log.toFinset = s.visitedStates) :
    (expandFace t j e s face).log.toFinset = (expandFace t j e s face).visitedStates := by
  unfold expandFace
  split
  · simp only [toFinset_append_single, h]
  · exact h

theorem foldl_expandFace_logVisited (t : ℤ) (j : ℤ → Option ℤ) (e : Entry) :
    ∀ (l : List ℕ) (s : SearchState), s.log.toFinset = s.visitedStates →
      (l.foldl (expandFace t j e) s).log.toFinset =
        (l.foldl (expandFace t j e) s).visitedStates := by
  intro l
  induction l with
  | nil => intro s h; exact h
  | cons f tl ih =>
    intro s h
    simp only [List.foldl_cons]
    exact ih _ (expandFace_logVisited t j e s f h)

theorem searchStep_logVisited (t : ℤ) (j : ℤ → Option ℤ) (s : SearchState)
    (h : s.log.toFinset = s.visitedStates) :
    (searchStep t j s).log.toFinset = (searchStep t j s).visitedStates := by
  unfold searchStep
  split
  · exact h
  · rename_i e rest hqq
    by_cases hi : s.iterations < max_iterations
    · rw [if_pos hi]
      by_cases hg : e.pos = t
      · rw [if_pos hg]
        split
        · exact h
        · exact h
      · rw [if_neg hg]
        by_cases hl : e.rolls.length > 1000
        · rw [if_pos hl]
          exact h
        · rw [if_neg hl]
          exact foldl_expandFace_logVisited t j e [1, 2, 3, 4, 5, 6] _ h
    · rw [if_neg hi]
      exact h

theorem iterate_logVisited (t : ℤ) (j : ℤ → Option ℤ) (n : ℕ) :
    ((searchStep t j)^[n] initState).log.toFinset =
      ((searchStep t j)^[n] initState).visitedStates := by
  induction n with
  | zero =>
    rw [Function.iterate_zero_apply]
    decide
  | succ n ih =>
    rw [Function.iterate_succ_apply']
    exact searchStep_logVisited t j _ ih

/-! Replay correctness of the queue entries and of the recorded solution. -/

theorem replay_concat (t : ℤ) (j : ℤ → Option ℤ) (r : List ℕ) (f : ℕ) :
    replay t j (r ++ [f]) = simulate_move (replay t j r).1 f (replay t j r).2 t j := by
  unfold replay
  rw [List.foldl_append]
  rfl

/-- Invariant of the search state tying every queue entry and the recorded
best solution back to the move rule: an entry's roll list replays exactly to
its position and die kind, and any recorded solution replays to the goal. -/
def replayInv (t : ℤ) (j : ℤ → Option ℤ) (s : SearchState) : Prop :=
  (∀ e ∈ s.queue, replay t j e.rolls = (e.pos, e.dice)) ∧
  (∀ r, s.best = some r → (replay t j r).1 = t)

theorem expandFace_replayQueue (t : ℤ) (j : ℤ → Option ℤ) (e : Entry)
    (he : replay t j e.rolls = (e.pos, e.dice)) :
    ∀ (l : List ℕ) (s : SearchState),
      (∀ e2 ∈ s.queue, replay t j e2.rolls = (e2.pos, e2.dice)) →
      ∀ e2 ∈ (l.foldl (expandFace t j e) s).queue, replay t j e2.rolls = (e2.pos, e2.dice) := by
  intro l
  induction l with
  | nil => intro s hs; exact hs
  | cons f tl ih =>
    intro s hs
    simp only [List.foldl_cons]
    apply ih
    unfold expandFace
    split
    · intro e2 he2
      simp only [List.mem_append, List.mem_singleton] at he2
      rcases he2 with h2 | h2
      · exact hs e2 h2
      · subst h2
        simp only []
        rw [replay_concat, he]
    · exact hs

theorem searchStep_replayInv (t : ℤ) (j : ℤ → Option ℤ) (s : SearchState)
    (h : replayInv t j s) : replayInv t j (searchStep t j s) := by
  obtain ⟨hq, hb⟩ := h
  unfold searchStep
  split
  · exact ⟨hq, hb⟩
  · rename_i e rest hqq
    have he : replay t j e.rolls = (e.pos, e.dice) :=
      hq e (by rw [hqq]; exact List.mem_cons_self e rest)
    have hrest : ∀ e2 ∈ rest, replay t j e2.rolls = (e2.pos, e2.dice) :=
      fun e2 h2 => hq e2 (by rw [hqq]; exact List.mem_cons_of_mem e h2)
    by_cases hi : s.iterations < max_iterations
    · rw [if_pos hi]
      by_cases hg : e.pos = t
      · rw [if_pos hg]
        split
        · refine ⟨hrest, ?_⟩
          intro r hr
          have hr2 : e.rolls = r := by
            simpa using hr
          rw [← hr2, he]
          exact hg
        · exact ⟨hrest, hb⟩
      · rw [if_neg hg]
        by_cases hl : e.rolls.length > 1000
        · rw [if_pos hl]
          exact ⟨hrest, hb⟩
        · rw [if_neg hl]
          refine ⟨expandFace_replayQueue t j e he [1, 2, 3, 4, 5, 6] _ hrest, ?_⟩
          intro r hr
          rw [(foldl_expandFace_untouched t j e [1, 2, 3, 4, 5, 6] _).2.1] at hr
          exact hb r hr
    · rw [if_neg hi]
      exact ⟨hq, hb⟩

theorem iterate_replayInv (t : ℤ) (j : ℤ → Option ℤ) (n : ℕ) :
    replayInv t j ((searchStep t j)^[n] initState) := by
  induction n with
  | zero =>
    rw [Function.iterate_zero_apply]
    constructor
    · intro e he
      simp only [initState, List.mem_singleton] at he
      subst he
      rfl
    · intro r hr
      exact absurd hr (by simp [initState])
  | succ n ih =>
    rw [Function.iterate_succ_apply']
    exact searchStep_replayInv t j _ ih

/-! The solver never returns an empty roll sequence. -/

theorem greedyFallback_ne_nil (t : ℤ) (j : ℤ → Option ℤ) : greedyFallback t j ≠ [] := by
  unfold greedyFallback
  split
  · simp
  · rename_i hne
    exact hne

theorem chooseResult_ne_nil (t : ℤ) (j : ℤ → Option ℤ) (o : Option (List ℕ)) :
    chooseResult t j o ≠ [] := by
  cases o with
  | none => exact greedyFallback_ne_nil t j
  | some rolls =>
    show (if rolls = [] then greedyFallback t j else rolls) ≠ []
    by_cases h : rolls = []
    · rw [if_pos h]
      exact greedyFallback_ne_nil t j
    · rw [if_neg h]
      exact h

theorem chooseResult_some (t : ℤ) (j : ℤ → Option ℤ) (r : List ℕ) (h : r ≠ []) :
    chooseResult t j (some r) = r := by
  show (if r = [] then greedyFallback t j else r) = r
  rw [if_neg h]

theorem find_winning_solution_ne_nil (t : ℤ) (j : ℤ → Option ℤ) :
    find_winning_solution t j ≠ [] :=
  chooseResult_ne_nil t j _

/-! Coverage invariant on the 6-square jump-free board: once the recorded
best coverage is at least one half, any recorded solution has at least two
rolls, because a recorded solution visits at most one more square than it
has rolls. -/

/-- Invariant used to bound the length of the solution returned on the
6-square board: every queue entry visits at most one more square than it has
rolls, the best coverage has reached one half, and a best solution of length
at least two is recorded. -/
def covInv (s : SearchState) : Prop :=
  (∀ e ∈ s.queue, e.visitedSquares.card ≤ e.rolls.length + 1) ∧
  Rat.divInt 1 2 ≤ s.bestCov ∧ s.best ≠ none ∧ 2 ≤ (s.best.getD []).length

instance (s : SearchState) : Decidable (covInv s) := by
  unfold covInv
  infer_instance

theorem cov_card_ge {b : ℚ} {c : ℕ} (h1 : Rat.divInt 1 2 ≤ b)
    (h2 : b < Rat.divInt (c : ℤ) 6) : 4 ≤ c := by
  rw [Rat.divInt_eq_div] at h1 h2
  push_cast at h1 h2
  have h3 : (3 : ℚ) < (c : ℚ) := by linarith
  have h4 : (3 : ℕ) < c := by exact_mod_cast h3
  omega

theorem expandFace_cardInv (t : ℤ) (j : ℤ → Option ℤ) (e : Entry)
    (he : e.visitedSquares.card ≤ e.rolls.length + 1) :
    ∀ (l : List ℕ) (s : SearchState),
      (∀ e2 ∈ s.queue, e2.visitedSquares.card ≤ e2.rolls.length + 1) →
      ∀ e2 ∈ (l.foldl (expandFace t j e) s).queue,
        e2.visitedSquares.card ≤ e2.rolls.length + 1 := by
  intro l
  induction l with
  | nil => intro s hs; exact hs
  | cons f tl ih =>
    intro s hs
    simp only [List.foldl_cons]
    apply ih
    unfold expandFace
    split
    · intro e2 he2
      simp only [List.mem_append, List.mem_singleton] at he2
      rcases he2 with h2 | h2
      · exact hs e2 h2
      · subst h2
        show (insert (simulate_move e.pos f e.dice t j).1 e.visitedSquares).card ≤
          (e.rolls ++ [f]).length + 1
        have hc := Finset.card_insert_le (simulate_move e.pos f e.dice t j).1 e.visitedSquares
        simp only [List.length_append, List.length_singleton]
        omega
    · exact hs

theorem searchStep_covInv (s : SearchState) (h : covInv s) :
    covInv (searchStep 6 emptyJumps s) := by
  obtain ⟨hq, hcov, hsome, hlen⟩ := h
  unfold searchStep
  split
  · exact ⟨hq, hcov, hsome, hlen⟩
  · rename_i e rest hqq
    have he := hq e (by rw [hqq]; exact List.mem_cons_self e rest)
    have hrest : ∀ e2 ∈ rest, e2.visitedSquares.card ≤ e2.rolls.length + 1 :=
      fun e2 h2 => hq e2 (by rw [hqq]; exact List.mem_cons_of_mem e h2)
    by_cases hi : s.iterations < max_iterations
    · rw [if_pos hi]
      by_cases hg : e.pos = 6
      · rw [if_pos hg]
        split
        · rename_i hgt
          have h4 : 4 ≤ e.visitedSquares.card := cov_card_ge hcov hgt
          refine ⟨hrest, ?_, by simp, ?_⟩
          · show Rat.divInt 1 2 ≤ Rat.divInt (e.visitedSquares.card : ℤ) 6
            exact le_of_lt (lt_of_le_of_lt hcov hgt)
          · show 2 ≤ ((some e.rolls).getD []).length
            have : e.rolls.length + 1 ≥ 4 := le_trans h4 he
            simp only [Option.getD_some]
            omega
        · exact ⟨hrest, hcov, hsome, hlen⟩
      · rw [if_neg hg]
        by_cases hl : e.rolls.length > 1000
        · rw [if_pos hl]
          exact ⟨hrest, hcov, hsome, hlen⟩
        · rw [if_neg hl]
          obtain ⟨-, hbe, hbc⟩ := foldl_expandFace_untouched 6 emptyJumps e [1, 2, 3, 4, 5, 6]
            { s with queue := rest, iterations := s.iterations + 1 }
          refine ⟨expandFace_cardInv 6 emptyJumps e he [1, 2, 3, 4, 5, 6] _ hrest, ?_, ?_, ?_⟩
          · rw [hbc]
            exact hcov
          · rw [hbe]
            exact hsome
          · rw [hbe]
            exact hlen
    · rw [if_neg hi]
      exact ⟨hq, hcov, hsome, hlen⟩

theorem covInv_iterate : ∀ (n : ℕ) (s : SearchState), covInv s →
    covInv ((searchStep 6 emptyJumps)^[n] s) := by
  intro n
  induction n with
  | zero => intro s h; exact h
  | succ n ih =>
    intro s h
    rw [Function.iterate_succ_apply']
    exact searchStep_covInv _ (ih s h)

theorem covInv_at_twelve : covInv ((searchStep 6 emptyJumps)^[12] initState) := by decide

theorem covInv_final : covInv ((searchStep 6 emptyJumps)^[max_iterations] initState) := by
  rw [show max_iterations = 99988 + 12 from rfl, Function.iterate_add_apply]
  exact covInv_iterate 99988 _ covInv_at_twelve

/-! On the 2-square board with a snake on the goal square the goal state is
unreachable. -/

theorem applyJumps_goalSnake (q : ℤ) : applyJumps jumpsGoalSnake q ≠ 2 := by
  unfold applyJumps jumpsGoalSnake
  by_cases h : q = 2
  · simp [h]
  · simp [h]

theorem reaches_goalSnake_ne (s : ℤ × ℕ) (h : Reaches 2 jumpsGoalSnake s) : s.1 ≠ 2 := by
  induction h with
  | start => decide
  | roll p d f h1 h6 hr ih => exact applyJumps_goalSnake _

/-! The coordinate mapping agrees with the spec formulation, and produces
only valid square ids. -/

theorem coord_to_square_eq_spec (x y : ℚ) (width height : ℤ) :
    coord_to_square x y width height = specSquareOfPoint x y width height := by
  unfold coord_to_square specSquareOfPoint
  split_ifs <;> first | rfl | tauto

theorem coord_to_square_bounds (x y : ℚ) (width height : ℤ) (q : ℤ)
    (hq : coord_to_square x y width height = some q) : 1 ≤ q ∧ q ≤ width * height := by
  unfold coord_to_square at hq
  split at hq
  · exact absurd hq (by simp)
  · split at hq
    · exact absurd hq (by simp)
    · rename_i hout
      push_neg at hout
      obtain ⟨hr0, hc0, hrh, hcw⟩ := hout
      have hw : 0 < width := lt_of_le_of_lt hc0 hcw
      have hh : 0 < height := lt_of_le_of_lt hr0 hrh
      have hr1 : rowOf y height * width ≤ (height - 1) * width :=
        mul_le_mul_of_nonneg_right (by linarith) (by linarith)
      have hr2 : (height - 1) * width = height * width - width := by ring
      have hr3 : height * width = width * height := mul_comm _ _
      have hr4 : 0 ≤ rowOf y height * width := mul_nonneg hr0 (by linarith)
      split at hq
      · have hq2 := Option.some.inj hq
        subst hq2
        constructor
        · linarith
        · linarith
      · have hq2 := Option.some.inj hq
        subst hq2
        constructor
        · linarith
        · linarith

/-! Soundness of jump discovery. -/

theorem segPair_some (o1 o2 : Option ℤ) (a b : ℤ) (h : segPair o1 o2 = some (a, b)) :
    o1 = some a ∧ o2 = some b ∧ a ≠ b := by
  cases o1 with
  | none => exact absurd h (by simp [segPair])
  | some a0 =>
    cases o2 with
    | none => exact absurd h (by simp [segPair])
    | some b0 =>
      change (if a0 ≠ 0 ∧ b0 ≠ 0 ∧ a0 ≠ b0 then some (a0, b0) else
        none : Option (ℤ × ℤ)) = some (a, b) at h
      split at h
      · rename_i hg
        simp only [Option.some.injEq, Prod.mk.injEq] at h
        obtain ⟨rfl, rfl⟩ := h
        exact ⟨rfl, rfl, hg.2.2⟩
      · exact absurd h (by simp)

theorem segJump_sound (s : Seg) (width height : ℤ) (a b : ℤ)
    (hs : segJump s width height = some (a, b)) :
    1 ≤ a ∧ a ≤ width * height ∧ 1 ≤ b ∧ b ≤ width * height ∧ a ≠ b := by
  unfold segJump at hs
  split at hs
  · obtain ⟨hca, hcb, hab⟩ := segPair_some _ _ a b hs
    obtain ⟨ha1, ha2⟩ := coord_to_square_bounds s.x1 s.y1 width height a hca
    obtain ⟨hb1, hb2⟩ := coord_to_square_bounds s.x2 s.y2 width height b hcb
    exact ⟨ha1, ha2, hb1, hb2, hab⟩
  · exact absurd hs (by simp)

theorem foldl_jumpUpdate_sound (width height : ℤ) :
    ∀ (l : List Seg) (m : ℤ → Option ℤ),
      (∀ k v, m k = some v →
        1 ≤ k ∧ k ≤ width * height ∧ 1 ≤ v ∧ v ≤ width * height ∧ k ≠ v) →
      ∀ k v, (l.foldl (jumpUpdate width height) m) k = some v →
        1 ≤ k ∧ k ≤ width * height ∧ 1 ≤ v ∧ v ≤ width * height ∧ k ≠ v := by
  intro l
  induction l with
  | nil => intro m hm; exact hm
  | cons sg tl ih =>
    intro m hm
    simp only [List.foldl_cons]
    apply ih
    intro k v hk
    unfold jumpUpdate at hk
    cases hsj : segJump sg width height with
    | none =>
      rw [hsj] at hk
      exact hm k v hk
    | some ab =>
      rw [hsj] at hk
      change addJump m ab.1 ab.2 k = some v at hk
      unfold addJump at hk
      split at hk
      · rename_i hke
        have hv := Option.some.inj hk
        subst hke
        subst hv
        exact segJump_sound sg width height ab.1 ab.2 hsj
      · exact hm k v hk

theorem foldl_jumpUpdate_skip (width height a : ℤ) :
    ∀ (l : List Seg) (m : ℤ → Option ℤ),
      (∀ s2 ∈ l, ∀ b2, segJump s2 width height ≠ some (a, b2)) →
      (l.foldl (jumpUpdate width height) m) a = m a := by
  intro l
  induction l with
  | nil => intro m _; rfl
  | cons sg tl ih =>
    intro m hno
    simp only [List.foldl_cons]
    rw [ih _ (fun s2 h2 => hno s2 (List.mem_cons_of_mem sg h2))]
    unfold jumpUpdate
    cases hsj : segJump sg width height with
    | none => rfl
    | some ab =>
      have hne : ¬ a = ab.1 := by
        intro hh
        exact hno sg (List.mem_cons_self sg tl) ab.2 (by rw [hsj, hh])
      show addJump m ab.1 ab.2 a = m a
      unfold addJump
      rw [if_neg hne]

theorem parse_board_jumps_last (width height : ℤ) (l1 l2 : List Seg) (sg : Seg)
    (a b : ℤ) (hs : segJump sg width height = some (a, b))
    (hno : ∀ s2 ∈ l2, ∀ b2, segJump s2 width height ≠ some (a, b2)) :
    parse_board_jumps (l1 ++ sg :: l2) width height a = some b := by
  unfold parse_board_jumps
  rw [List.foldl_append]
  simp only [List.foldl_cons]
  rw [foldl_jumpUpdate_skip width height a l2 _ hno]
  unfold jumpUpdate
  rw [hs]
  show addJump (List.foldl (jumpUpdate width height) emptyJumps l1) a b a = some b
  unfold addJump
  simp

/-! The die-kind transition of the code coincides with the one worded by the
spec. -/

theorem nextDiceOf_eq_spec (dice_type face : ℕ) :
    nextDiceOf dice_type face = specNextDie dice_type face := by
  unfold nextDiceOf specNextDie
  by_cases h0 : dice_type = 0 <;> by_cases h6 : face = 6 <;> by_cases h1 : face = 1 <;>
    simp_all

theorem simulate_move_eq_specMove (pos : ℤ) (face dice_type : ℕ) (total_squares : ℤ)
    (jumps : ℤ → Option ℤ) :
    simulate_move pos face dice_type total_squares jumps =
      specMove pos face dice_type total_squares jumps := by
  unfold simulate_move specMove
  rw [nextDiceOf_eq_spec]

/-! Concrete values of the coordinate mapping used by the examples. -/

theorem coord_example_one : coord_to_square 0 32 3 2 = some 1 := by
  unfold coord_to_square colOf rowOf SQUARE_SIZE
  norm_num

theorem coord_example_five : coord_to_square 32 0 3 2 = some 5 := by
  unfold coord_to_square colOf rowOf SQUARE_SIZE
  norm_num

theorem c8_seg_example : segJump ⟨"red", 0, 32, 32, 0⟩ 3 2 = some (1, 5) := by
  show (if ("red" : String) ≠ "" ∧ ("red" : String) ≠ "none" then
    segPair (coord_to_square 0 32 3 2) (coord_to_square 32 0 3 2) else none) = some (1, 5)
  rw [if_pos (by decide : ("red" : String) ≠ "" ∧ ("red" : String) ≠ "none")]
  rw [coord_example_one, coord_example_five]
  decide

theorem c8_parse_example : parse_board_jumps [⟨"red", 0, 32, 32, 0⟩] 3 2 1 = some 5 := by
  unfold parse_board_jumps
  simp only [List.foldl_cons, List.foldl_nil]
  unfold jumpUpdate
  rw [c8_seg_example]
  show addJump emptyJumps 1 5 1 = some 5
  unfold addJump
  simp

/-! Claims. -/

/-- C1, counterexample: on the 6-square jump-free board the single roll [6]
is a winning sequence, yet the solver returns a sequence of length at least
two, because a later-dequeued longer solution with higher coverage
overwrites the first (shortest) one found.  The returned sequence is
therefore not of minimal length. -/
theorem c1_not_shortest_counterexample :
    winSeq 6 emptyJumps [6] ∧ 2 ≤ (find_winning_solution 6 emptyJumps).length := by
  constructor
  · decide
  · obtain ⟨-, -, hsome, hlen⟩ := covInv_final
    cases hb : ((searchStep 6 emptyJumps)^[max_iterations] initState).best with
    | none => exact absurd hb hsome
    | some r =>
      rw [hb] at hlen
      simp only [Option.getD_some] at hlen
      have hne : r ≠ [] := by
        intro hnil
        rw [hnil] at hlen
        simp at hlen
      have heq : find_winning_solution 6 emptyJumps = r := by
        unfold find_winning_solution
        rw [hb]
        exact chooseResult_some 6 emptyJumps r hne
      rw [heq]
      exact hlen

/-- C1 (amended): the solver does not return a shortest or lexicographically
first winning sequence; what holds is that every solution recorded by the
search phase as its running best, at any iteration count, replays from
(0, Regular) to exactly the goal square, so the returned sequence is winning
whenever the search phase produced it. -/
theorem c1_recorded_solution_wins (t : ℤ) (j : ℤ → Option ℤ) (n : ℕ) (r : List ℕ)
    (h : ((searchStep t j)^[n] initState).best = some r) :
    (replay t j r).1 = t :=
  (iterate_replayInv t j n).2 r h

/-- C1 witness: after 7 iterations on the 6-square jump-free board the
recorded best solution is [6], and it indeed replays to the goal square. -/
theorem c1_recorded_solution_wins_witness : (replay 6 emptyJumps [6]).1 = 6 :=
  c1_recorded_solution_wins 6 emptyJumps 7 [6] (by decide)

/-- C2, counterexample: rolling 6 then 6 from (0, Regular) on the 10-square
jump-free board does not leave the player at 8. -/
theorem c2_double_six_counterexample : (replay 10 emptyJumps [6, 6]).1 ≠ 8 := by
  decide

/-- C2 (amended): the first 6 moves to square 6 and switches the die to
Power, so the second roll steps 2 ^ 6 = 64 to provisional 70, which the
reflection rule sends to 10 - 60 = -50: after the two rolls the player is at
-50 with the power die, not at 8. -/
theorem c2_double_six_amended :
    replay 10 emptyJumps [6] = (6, 1) ∧ replay 10 emptyJumps [6, 6] = (-50, 1) := by
  decide

/-- C3, counterexample: on the 2-square board with the snake 2 into 1 the goal
state is unreachable, yet the solver does not return the empty sequence — the
greedy fallback invents a non-empty one — so returning empty is not
equivalent to the goal being unreachable. -/
theorem c3_empty_iff_counterexample :
    ¬ (find_winning_solution 2 jumpsGoalSnake = [] ↔
        ¬ ∃ s, Reaches 2 jumpsGoalSnake s ∧ s.1 = 2) := by
  intro h
  have hunreach : ¬ ∃ s, Reaches 2 jumpsGoalSnake s ∧ s.1 = 2 := by
    rintro ⟨s, hs, h2⟩
    exact reaches_goalSnake_ne s hs h2
  exact find_winning_solution_ne_nil 2 jumpsGoalSnake (h.mpr hunreach)

/-- C3 (amended): the solver, a total function, never raises and never
returns an empty roll sequence, for any board: when the search finds no
solution it falls back to a greedy walk and returns its non-empty roll list,
or the literal [1]. -/
theorem c3_never_returns_empty (t : ℤ) (j : ℤ → Option ℤ) :
    find_winning_solution t j ≠ [] :=
  find_winning_solution_ne_nil t j

/-- C4, counterexample: on the 1-square board, within the first three
iterations the pair (1, 0) is enqueued twice — once from the start state and
once again from (-1, 0), whose path covers the new square 1 — so the log of
enqueued (position, die kind) pairs is not duplicate-free. -/
theorem c4_duplicate_enqueue_counterexample :
    ¬ ((searchStep 1 emptyJumps)^[3] initState).log.Nodup := by
  decide

/-- C4 (amended): the visited-states set is populated exactly at enqueue
time — after any number of iterations it equals the set of pairs enqueued so
far — but a pair already in the visited set can be enqueued again when the
successor's path visits a new square, so a pair may be enqueued twice. -/
theorem c4_visited_set_matches_enqueued (t : ℤ) (j : ℤ → Option ℤ) (n : ℕ) :
    ((searchStep t j)^[n] initState).log.toFinset =
      ((searchStep t j)^[n] initState).visitedStates :=
  iterate_logVisited t j n

/-- C5, counterexample: on the 1-square jump-free board the search is still
running after 2 * (1 + 1) = 4 dequeue-and-expand iterations: the queue is
non-empty and the iteration cap is not reached, so the number of expansions
is not bounded by the number of distinct (position, die kind) pairs. -/
theorem c5_bound_counterexample :
    ¬ isFinished ((searchStep 1 emptyJumps)^[(2 * ((1 : ℤ) + 1)).toNat] initState) := by
  decide

/-- C5 (amended): the search always terminates, but only the hard iteration
cap of 100000 bounds its expansions: after max_iterations steps the loop
guard has failed for every board. -/
theorem c5_terminates_within_cap (t : ℤ) (j : ℤ → Option ℤ) :
    isFinished ((searchStep t j)^[max_iterations] initState) := by
  rcases iterate_searchStep_finished t j max_iterations with h | h
  · exact h
  · have : ¬ ((searchStep t j)^[max_iterations] initState).iterations < max_iterations := by
      rw [h]
      exact lt_irrefl _
    exact Or.inr this

/-- C6: for every legal face, simulate_move equals the spec move rule: the
step is face under the regular die and 2 ^ face under the power die, the
provisional position reflects off the last square by its excess, the jump
table applies once after reflection, and the next die kind is Power exactly
when a 6 is rolled on Regular or a non-1 on Power, independently of the
resulting position. -/
theorem c6_move_rule (pos : ℤ) (face dice_type : ℕ) (total_squares : ℤ)
    (jumps : ℤ → Option ℤ) (h1 : 1 ≤ face) (h6 : face ≤ 6) :
    simulate_move pos face dice_type total_squares jumps =
      specMove pos face dice_type total_squares jumps :=
  simulate_move_eq_specMove pos face dice_type total_squares jumps

/-- C6 witness: the move rule equality evaluated at face 6 on the regular
die. -/
theorem c6_move_rule_witness :
    simulate_move 0 6 0 10 emptyJumps = specMove 0 6 0 10 emptyJumps :=
  c6_move_rule 0 6 0 10 emptyJumps (by decide) (by decide)

/-- C7: the coordinate-to-square mapping agrees everywhere with the spec
formulation — no square exactly when the point or the computed row and
column fall outside the grid, otherwise the boustrophedon number with
col = floor(x / 32) and row = height - 1 - floor(y / 32) — and on the 3 by 2
board the point (0, square_size) maps to square 1. -/
theorem c7_coordinate_mapping :
    (∀ (x y : ℚ) (width height : ℤ),
      coord_to_square x y width height = specSquareOfPoint x y width height) ∧
    coord_to_square 0 SQUARE_SIZE 3 2 = some 1 :=
  ⟨coord_to_square_eq_spec, coord_example_one⟩

/-- C8: a segment contributes a jump only if both of its endpoints map to
squares and those squares differ; in the jump table built from the
document's segments, every binding maps a valid square id to a different
valid square id; and when several segments share a source square the last
one in document order wins: after the last segment contributing source a,
the table maps a to that segment's destination. -/
theorem c8_jump_table_wellformed (width height : ℤ) (segs : List Seg) :
    (∀ k v, parse_board_jumps segs width height k = some v →
      1 ≤ k ∧ k ≤ width * height ∧ 1 ≤ v ∧ v ≤ width * height ∧ k ≠ v) ∧
    (∀ (l1 l2 : List Seg) (sg : Seg) (a b : ℤ), segs = l1 ++ sg :: l2 →
      segJump sg width height = some (a, b) →
      (∀ s2 ∈ l2, ∀ b2, segJump s2 width height ≠ some (a, b2)) →
      parse_board_jumps segs width height a = some b) ∧
    (∀ (sg : Seg) (a b : ℤ), segJump sg width height = some (a, b) →
      coord_to_square sg.x1 sg.y1 width height = some a ∧
      coord_to_square sg.x2 sg.y2 width height = some b ∧ a ≠ b) := by
  refine ⟨?_, ?_, ?_⟩
  · exact foldl_jumpUpdate_sound width height segs emptyJumps (by intro k v h; simp [emptyJumps] at h)
  · intro l1 l2 sg a b hsegs hs hno
    rw [hsegs]
    exact parse_board_jumps_last width height l1 l2 sg a b hs hno
  · intro sg a b h
    unfold segJump at h
    split at h
    · exact segPair_some _ _ a b h
    · exact absurd h (by simp)

/-- C8 witness: a red segment from pixel (0, 32) to pixel (32, 0) on the
3 by 2 board contributes the jump 1 into 5; both ids are valid squares and
they differ. -/
theorem c8_jump_table_wellformed_witness :
    (1 ≤ (1 : ℤ) ∧ (1 : ℤ) ≤ 3 * 2 ∧ 1 ≤ (5 : ℤ) ∧ (5 : ℤ) ≤ 3 * 2 ∧ (1 : ℤ) ≠ 5) ∧
    parse_board_jumps [⟨"red", 0, 32, 32, 0⟩] 3 2 1 = some 5 :=
  ⟨(c8_jump_table_wellformed 3 2 [⟨"red", 0, 32, 32, 0⟩]).1 1 5 c8_parse_example,
   (c8_jump_table_wellformed 3 2 [⟨"red", 0, 32, 32, 0⟩]).2.1 [] [] ⟨"red", 0, 32, 32, 0⟩ 1 5
     rfl c8_seg_example (by simp)⟩

/-- C9: the solver is deterministic — it is a pure function of the board
model, so two runs on equal total_squares and pointwise-equal jump tables
return the identical roll sequence. -/
theorem c9_deterministic (t1 t2 : ℤ) (j1 j2 : ℤ → Option ℤ)
    (ht : t1 = t2) (hj : ∀ k, j1 k = j2 k) :
    find_winning_solution t1 j1 = find_winning_solution t2 j2 := by
  subst ht
  rw [funext hj]

/-- C9 witness: two syntactically different but pointwise-equal empty jump
tables give the same result on the 6-square board. -/
theorem c9_deterministic_witness :
    find_winning_solution 6 emptyJumps = find_winning_solution 6 (fun _ => none) :=
  c9_deterministic 6 6 emptyJumps (fun _ => none) rfl (fun _ => rfl)

/-- C10: within one move the jump table is applied at most once: whenever
the reflected landing square is a jump source, the move resolves to that
jump's destination, even when the destination is itself a jump source — the
second jump is not taken. -/
theorem c10_jump_applied_once (pos : ℤ) (face dice_type : ℕ) (total_squares : ℤ)
    (jumps : ℤ → Option ℤ) (d : ℤ)
    (h : jumps (reflectOvershoot total_squares (pos + moveValue dice_type face)) = some d) :
    (simulate_move pos face dice_type total_squares jumps).1 = d := by
  show applyJumps jumps (reflectOvershoot total_squares (pos + moveValue dice_type face)) = d
  unfold applyJumps
  rw [h]

/-- C10 witness: with the chain 9 into 2 and 2 into 5, the move from square 3
rolling 6 lands on 9 and resolves to 2, not to 5 — the jump out of 2 is not
taken in the same move. -/
theorem c10_jump_applied_once_witness :
    (simulate_move 3 6 0 20 chainJumps).1 = 2 ∧ chainJumps 2 = some 5 :=
  ⟨c10_jump_applied_once 3 6 0 20 chainJumps 2 (by decide), by decide⟩

end SnakesLadders
